import Mathlib

/-!
Verification of the comment-collection and navigation-resilience engine of the
youtube-comment-summarizer browser extension.

Strings are modelled as lists of UTF-16 code points (`List Nat`); JavaScript
values that may or may not be strings are modelled by `JsValue`.  Fallible
code is modelled with `Except`; the DOM and the asynchronous environment are
modelled by oracles (functions from query indices to results).
-/

set_option autoImplicit false

namespace YTCS

/-! ## Text Sanitizer (utils.js `TextSanitizer.sanitize`, content.js `sanitizeText`)

The regex `[\x00-\x08\x0B\x0C\x0E-\x1F\x7F]` removes the control characters
0x00-0x08, 0x0B, 0x0C, 0x0E-0x1F and 0x7F; a second replace removes `\u0000`
(already covered by the first); `trim` removes JavaScript WhiteSpace and
LineTerminator code points from both ends; `substring(0, maxLen)` truncates. -/

def isControlChar (c : Nat) : Bool :=
  decide (c ≤ 8) || c == 11 || c == 12 || (decide (14 ≤ c) && decide (c ≤ 31)) || c == 127

def isJsWhitespace (c : Nat) : Bool :=
  c == 9 || c == 10 || c == 11 || c == 12 || c == 13 || c == 32 || c == 160 ||
  c == 5760 || (decide (8192 ≤ c) && decide (c ≤ 8202)) || c == 8232 || c == 8233 ||
  c == 8239 || c == 8287 || c == 12288 || c == 65279

/-- Strip of the control characters matched by the first regex replace. -/
def stripControl (l : List Nat) : List Nat :=
  l.filter (fun c => !isControlChar c)

/-- Strip of null code points, the second regex replace. -/
def stripNull (l : List Nat) : List Nat :=
  l.filter (fun c => c != 0)

/-- JavaScript `String.prototype.trim`. -/
def trimWs (l : List Nat) : List Nat :=
  ((l.dropWhile isJsWhitespace).reverse.dropWhile isJsWhitespace).reverse

/-- Shared body of both sanitizer revisions: strip control characters, strip
nulls, trim, truncate to `maxLen`. -/
def sanitizeCore (maxLen : Nat) (l : List Nat) : List Nat :=
  (trimWs (stripNull (stripControl l))).take maxLen

/-- A JavaScript value that is either a string or some non-string value. -/
inductive JsValue where
  | str (s : List Nat)
  | nonString
  deriving DecidableEq

namespace TextSanitizer

/-- utils.js `TextSanitizer.sanitize(input, maxLength)`: non-string input
yields the empty string, otherwise strip control characters, strip nulls,
trim and truncate.  In the source `maxLength` defaults to 2000; callers
below pass 2000 explicitly where the source relies on the default. -/
def sanitize (input : JsValue) (maxLength : Nat) : List Nat :=
  match input with
  | JsValue.str s => sanitizeCore maxLength s
  | JsValue.nonString => []

end TextSanitizer

/-- content.js `sanitizeText(text)`: the same body with the length limit
hard-coded to 2000. -/
def sanitizeText (text : JsValue) : List Nat :=
  match text with
  | JsValue.str s => sanitizeCore 2000 s
  | JsValue.nonString => []

/-! ### Sanitizer lemmas -/

theorem dropWhile_idem (p : Nat → Bool) (l : List Nat) :
    (l.dropWhile p).dropWhile p = l.dropWhile p := by
  induction l with
  | nil => rfl
  | cons a l ih =>
    by_cases h : p a
    · simp [List.dropWhile_cons, h, ih]
    · simp [List.dropWhile_cons, h]

theorem mem_of_mem_dropWhile {p : Nat → Bool} {l : List Nat} {a : Nat}
    (h : a ∈ l.dropWhile p) : a ∈ l := by
  have := List.takeWhile_append_dropWhile p l
  rw [← this]
  exact List.mem_append_right _ h

theorem mem_of_mem_trimWs {l : List Nat} {a : Nat} (h : a ∈ trimWs l) : a ∈ l := by
  unfold trimWs at h
  rw [List.mem_reverse] at h
  have h1 := mem_of_mem_dropWhile h
  rw [List.mem_reverse] at h1
  exact mem_of_mem_dropWhile h1

theorem length_dropWhile_le (p : Nat → Bool) (l : List Nat) :
    (l.dropWhile p).length ≤ l.length := by
  conv_rhs => rw [← List.takeWhile_append_dropWhile p l]
  rw [List.length_append]
  omega

theorem length_trimWs_le (l : List Nat) : (trimWs l).length ≤ l.length := by
  unfold trimWs
  rw [List.length_reverse]
  calc ((l.dropWhile isJsWhitespace).reverse.dropWhile isJsWhitespace).length
      ≤ (l.dropWhile isJsWhitespace).reverse.length := length_dropWhile_le _ _
    _ = (l.dropWhile isJsWhitespace).length := List.length_reverse _
    _ ≤ l.length := length_dropWhile_le _ _

theorem length_sanitizeCore_le (maxLen : Nat) (l : List Nat) :
    (sanitizeCore maxLen l).length ≤ maxLen := by
  unfold sanitizeCore
  rw [List.length_take]
  exact min_le_left _ _

theorem mem_sanitizeCore {maxLen : Nat} {l : List Nat} {c : Nat}
    (h : c ∈ sanitizeCore maxLen l) :
    isControlChar c = false ∧ c ≠ 0 := by
  unfold sanitizeCore at h
  have h1 : c ∈ trimWs (stripNull (stripControl l)) := List.take_subset _ _ h
  have h2 : c ∈ stripNull (stripControl l) := mem_of_mem_trimWs h1
  unfold stripNull at h2
  have h3 := List.of_mem_filter h2
  have h4 : c ∈ stripControl l := List.mem_of_mem_filter h2
  unfold stripControl at h4
  have h5 := List.of_mem_filter h4
  constructor
  · simpa using h5
  · simpa using h3

/-- C8: for every input (string or not) and every maximum length, `sanitize`
returns a string of length at most `maxLen` containing none of the control
characters 0x00-0x08, 0x0B, 0x0C, 0x0E-0x1F, 0x7F; on non-string input it
returns the empty string (and, being a total function, never throws).  The
same holds for the content.js revision `sanitizeText` with its fixed limit
of 2000. -/
theorem sanitize_bounds :
    ∀ (v : JsValue) (maxLength : Nat),
      (TextSanitizer.sanitize v maxLength).length ≤ maxLength ∧
      (∀ c ∈ TextSanitizer.sanitize v maxLength, isControlChar c = false) ∧
      TextSanitizer.sanitize JsValue.nonString maxLength = [] ∧
      (sanitizeText v).length ≤ 2000 ∧
      (∀ c ∈ sanitizeText v, isControlChar c = false) ∧
      sanitizeText JsValue.nonString = [] := by
  intro v maxLength
  refine ⟨?_, ?_, rfl, ?_, ?_, rfl⟩
  · cases v with
    | str s => exact length_sanitizeCore_le _ _
    | nonString => simp [TextSanitizer.sanitize]
  · intro c hc
    cases v with
    | str s => exact (mem_sanitizeCore hc).1
    | nonString => simp [TextSanitizer.sanitize] at hc
  · cases v with
    | str s => exact length_sanitizeCore_le _ _
    | nonString => simp [sanitizeText]
  · intro c hc
    cases v with
    | str s => exact (mem_sanitizeCore hc).1
    | nonString => simp [sanitizeText] at hc

/-! ### Idempotence of the sanitizer (C2)

The sanitizer trims before truncating, so truncation can expose trailing
whitespace that a second pass removes: idempotence holds only for inputs
that are not cut by the truncation. -/

theorem head_not_sat_of_dropWhile_eq {p : Nat → Bool} {a : Nat} {l : List Nat}
    (h : (a :: l).dropWhile p = a :: l) : p a = false := by
  cases hpa : p a with
  | false => rfl
  | true =>
    rw [List.dropWhile_cons, if_pos hpa] at h
    have hlen := congrArg List.length h
    have hle := length_dropWhile_le p l
    simp only [List.length_cons] at hlen
    omega

theorem dropWhile_trimRight_fixed {p : Nat → Bool} {m : List Nat}
    (hm : m.dropWhile p = m) :
    ((m.reverse.dropWhile p).reverse).dropWhile p = (m.reverse.dropWhile p).reverse := by
  have hsplit : m.reverse.takeWhile p ++ m.reverse.dropWhile p = m.reverse :=
    List.takeWhile_append_dropWhile p m.reverse
  cases hd : (m.reverse.dropWhile p).reverse with
  | nil => simp [hd]
  | cons a u =>
    have hm2 : m = a :: (u ++ (m.reverse.takeWhile p).reverse) := by
      have := congrArg List.reverse hsplit
      rw [List.reverse_append, List.reverse_reverse, hd] at this
      simpa using this.symm
    have hfix : (a :: (u ++ (m.reverse.takeWhile p).reverse)).dropWhile p
        = a :: (u ++ (m.reverse.takeWhile p).reverse) := by
      rw [← hm2]; exact hm
    have hpa : p a = false := head_not_sat_of_dropWhile_eq hfix
    simp [List.dropWhile_cons, hpa]

theorem trimWs_idem (l : List Nat) : trimWs (trimWs l) = trimWs l := by
  unfold trimWs
  have hm : (l.dropWhile isJsWhitespace).dropWhile isJsWhitespace
      = l.dropWhile isJsWhitespace := dropWhile_idem _ _
  have hA := dropWhile_trimRight_fixed hm
  rw [hA, List.reverse_reverse, dropWhile_idem]

theorem filter_eq_self_of_all {p : Nat → Bool} {l : List Nat}
    (h : ∀ c ∈ l, p c = true) : l.filter p = l :=
  List.filter_eq_self.mpr h

/-- Auxiliary: on a string already produced by the strip/trim pipeline, the
strip passes are the identity. -/
theorem strip_sanitizeCore (maxLen : Nat) (l : List Nat) :
    stripNull (stripControl (sanitizeCore maxLen l)) = sanitizeCore maxLen l := by
  have h1 : stripControl (sanitizeCore maxLen l) = sanitizeCore maxLen l := by
    apply filter_eq_self_of_all
    intro c hc
    simp [(mem_sanitizeCore hc).1]
  rw [h1]
  apply filter_eq_self_of_all
  intro c hc
  simpa using (mem_sanitizeCore hc).2

theorem sanitizeCore_of_trimmed_short {maxLen : Nat} {l : List Nat}
    (htrim : trimWs l = l) (hstrip : stripNull (stripControl l) = l)
    (hlen : l.length ≤ maxLen) : sanitizeCore maxLen l = l := by
  unfold sanitizeCore
  rw [hstrip, htrim]
  exact List.take_of_length_le hlen

/-- C2 (amended): the sanitizer is idempotent on every string whose length is
at most the maximum length (in particular on every string the truncation
does not cut), for the default maximum length 2000. -/
theorem sanitize_idempotent_of_short (s : List Nat) (h : s.length ≤ 2000) :
    TextSanitizer.sanitize (JsValue.str (TextSanitizer.sanitize (JsValue.str s) 2000)) 2000
      = TextSanitizer.sanitize (JsValue.str s) 2000 := by
  show sanitizeCore 2000 (sanitizeCore 2000 s) = sanitizeCore 2000 s
  have hlen1 : (trimWs (stripNull (stripControl s))).length ≤ 2000 := by
    calc (trimWs (stripNull (stripControl s))).length
        ≤ (stripNull (stripControl s)).length := length_trimWs_le _
      _ ≤ (stripControl s).length := List.length_filter_le _ _
      _ ≤ s.length := List.length_filter_le _ _
      _ ≤ 2000 := h
  have hfix : sanitizeCore 2000 s = trimWs (stripNull (stripControl s)) := by
    unfold sanitizeCore
    exact List.take_of_length_le hlen1
  apply sanitizeCore_of_trimmed_short
  · rw [hfix]; exact trimWs_idem _
  · exact strip_sanitizeCore _ _
  · rw [hfix]; exact hlen1

/-- Witness for the amended C2 theorem at the concrete input "abc". -/
theorem sanitize_idempotent_of_short_witness :
    ([97, 98, 99] : List Nat).length ≤ 2000 ∧
      TextSanitizer.sanitize (JsValue.str (TextSanitizer.sanitize (JsValue.str [97, 98, 99]) 2000)) 2000
        = TextSanitizer.sanitize (JsValue.str [97, 98, 99]) 2000 :=
  ⟨by decide, sanitize_idempotent_of_short [97, 98, 99] (by decide)⟩

/-! Concrete refutation of unrestricted idempotence: 1999 copies of `a`
followed by a space and a `b` has 2001 characters; the first pass trims
nothing and truncates to 2000 characters ending in the space, the second
pass trims that space. -/

def xC2 : List Nat := List.replicate 1999 97 ++ [32, 98]

theorem dropWhile_replicate_not {p : Nat → Bool} {a : Nat} (h : p a = false) (n : Nat) :
    (List.replicate n a).dropWhile p = List.replicate n a := by
  cases n with
  | zero => rfl
  | succ n =>
    rw [List.replicate_succ, List.dropWhile_cons, if_neg (by simp [h])]

theorem reverse_replicate_nat (n : Nat) (a : Nat) :
    (List.replicate n a).reverse = List.replicate n a := by
  induction n with
  | zero => rfl
  | succ n ih =>
    rw [List.replicate_succ, List.reverse_cons, ih, ← List.replicate_succ',
      List.replicate_succ]

theorem strip_xC2 : stripNull (stripControl xC2) = xC2 := by
  have h1 : stripControl xC2 = xC2 := by
    apply filter_eq_self_of_all
    intro c hc
    unfold xC2 at hc
    rcases List.mem_append.mp hc with h | h
    · rw [List.eq_of_mem_replicate h]; decide
    · fin_cases h <;> decide
  rw [h1]
  apply filter_eq_self_of_all
  intro c hc
  unfold xC2 at hc
  rcases List.mem_append.mp hc with h | h
  · rw [List.eq_of_mem_replicate h]; decide
  · fin_cases h <;> decide

theorem dropWhile_cons_head_not {p : Nat → Bool} {a : Nat} (h : p a = false)
    (l : List Nat) : (a :: l).dropWhile p = a :: l := by
  simp [List.dropWhile_cons, h]

/-- Trim is the identity on `a…a b` strings for non-whitespace end
characters (parametric in the number of `a`s so that `simp` never unfolds a
numeral-sized `replicate`). -/
theorem trimWs_an_sp_b (n : Nat) :
    trimWs (List.replicate (n + 1) 97 ++ [32, 98]) = List.replicate (n + 1) 97 ++ [32, 98] := by
  unfold trimWs
  have h1 : (List.replicate (n + 1) 97 ++ [32, 98]).dropWhile isJsWhitespace
      = List.replicate (n + 1) 97 ++ [32, 98] := by
    rw [List.replicate_succ, List.cons_append]
    exact dropWhile_cons_head_not (by decide) _
  have h2 : (List.replicate (n + 1) 97 ++ [32, 98]).reverse
      = 98 :: 32 :: List.replicate (n + 1) 97 := by
    rw [List.reverse_append, reverse_replicate_nat]
    rfl
  rw [h1, h2, dropWhile_cons_head_not (by decide), ← h2, List.reverse_reverse]

theorem trimWs_an_sp (n : Nat) :
    trimWs (List.replicate (n + 1) 97 ++ [32]) = List.replicate (n + 1) 97 := by
  unfold trimWs
  have h1 : (List.replicate (n + 1) 97 ++ [32]).dropWhile isJsWhitespace
      = List.replicate (n + 1) 97 ++ [32] := by
    rw [List.replicate_succ, List.cons_append]
    exact dropWhile_cons_head_not (by decide) _
  have h2 : (List.replicate (n + 1) 97 ++ [32]).reverse
      = 32 :: List.replicate (n + 1) 97 := by
    rw [List.reverse_append, reverse_replicate_nat]
    rfl
  rw [h1, h2, List.dropWhile_cons, if_pos (by decide),
    dropWhile_replicate_not (by decide), reverse_replicate_nat]

theorem trimWs_xC2 : trimWs xC2 = xC2 := by
  have e : xC2 = List.replicate (1998 + 1) 97 ++ [32, 98] := rfl
  rw [e]
  exact trimWs_an_sp_b 1998

theorem sanitizeCore_xC2 : sanitizeCore 2000 xC2 = List.replicate 1999 97 ++ [32] := by
  unfold sanitizeCore
  rw [strip_xC2, trimWs_xC2]
  unfold xC2
  rw [List.take_append_eq_append_take,
    List.take_of_length_le (by rw [List.length_replicate]; omega),
    List.length_replicate]
  rfl

theorem trimWs_repl_sp : trimWs (List.replicate 1999 97 ++ [32]) = List.replicate 1999 97 := by
  have e : List.replicate 1999 (97 : Nat) = List.replicate (1998 + 1) 97 := rfl
  rw [e]
  exact trimWs_an_sp 1998

theorem strip_xC2' : stripNull (stripControl (List.replicate 1999 97 ++ [32]))
    = List.replicate 1999 97 ++ [32] := by
  have h1 : stripControl (List.replicate 1999 97 ++ [32]) = List.replicate 1999 97 ++ [32] := by
    apply filter_eq_self_of_all
    intro c hc
    rcases List.mem_append.mp hc with h | h
    · rw [List.eq_of_mem_replicate h]; decide
    · fin_cases h; decide
  rw [h1]
  apply filter_eq_self_of_all
  intro c hc
  rcases List.mem_append.mp hc with h | h
  · rw [List.eq_of_mem_replicate h]; decide
  · fin_cases h; decide

/-- C2 (counterexample): at the 2001-character input `xC2` (1999 `a`s, a
space, a `b`) the sanitizer with its default maximum length is not
idempotent — the first pass returns 2000 characters ending in a space, the
second pass trims that space and returns 1999 characters. -/
theorem sanitize_not_idempotent_cex :
    TextSanitizer.sanitize (JsValue.str (TextSanitizer.sanitize (JsValue.str xC2) 2000)) 2000
      ≠ TextSanitizer.sanitize (JsValue.str xC2) 2000 := by
  show sanitizeCore 2000 (sanitizeCore 2000 xC2) ≠ sanitizeCore 2000 xC2
  rw [sanitizeCore_xC2]
  have h2 : sanitizeCore 2000 (List.replicate 1999 97 ++ [32]) = List.replicate 1999 97 := by
    unfold sanitizeCore
    rw [strip_xC2', trimWs_repl_sp]
    exact List.take_of_length_le (by rw [List.length_replicate]; omega)
  rw [h2]
  intro h
  have hlen := congrArg List.length h
  rw [List.length_replicate, List.length_append, List.length_replicate,
    List.length_singleton] at hlen
  omega

/-! ## DOM Comment Locator (content.js `findComments`,
CommentService.js `CommentService.findComments`)

A DOM fixture is modelled by the lists of elements each CSS selector
returns; an element is `none` when it is null or has no (falsy) text
content, `some t` when its `textContent` is the non-empty string `t`.

Both revisions run the same accept/reject loop over one selector's
elements: sanitize the text, accept it when the length test passes and it
has not been seen, and break once the accepted list reaches the cap.  The
only difference is the length test: content.js uses `text.length > 5`,
CommentService.js uses `text.length >= MIN_COMMENT_LENGTH` with
`MIN_COMMENT_LENGTH = 5` (and `MAX_COMMENTS = 200` in both). -/

def collectLoop (lenOk : Nat → Bool) (cap : Nat) :
    List (Option (List Nat)) → List (List Nat) → List (List Nat) →
    List (List Nat) × List (List Nat)
  | [], seen, comments => (seen, comments)
  | none :: rest, seen, comments => collectLoop lenOk cap rest seen comments
  | some t :: rest, seen, comments =>
    if t.isEmpty then collectLoop lenOk cap rest seen comments
    else
      let s := sanitizeCore 2000 t
      if lenOk s.length && !(decide (s ∈ seen)) then
        let comments' := comments ++ [s]
        if decide (cap ≤ comments'.length) then (s :: seen, comments')
        else collectLoop lenOk cap rest (s :: seen) comments'
      else collectLoop lenOk cap rest seen comments

/-- Fallback chain shared by both revisions: try each selector's elements in
order with a seen-set persisting across selectors, and stop at the first
selector whose pass leaves the accepted list non-empty. -/
def findCommentsGo (lenOk : Nat → Bool) :
    List (List (Option (List Nat))) → List (List Nat) → List (List Nat) → List (List Nat)
  | [], _, comments => comments
  | elems :: rest, seen, comments =>
    let r := collectLoop lenOk 200 elems seen comments
    if decide (0 < r.2.length) then r.2 else findCommentsGo lenOk rest r.1 r.2

/-- content.js `findComments()`: iterate over `COMMENT_SELECTORS` with a
strict `text.length > 5` test and a cap of 200. -/
def findComments (selectorResults : List (List (Option (List Nat)))) : List (List Nat) :=
  findCommentsGo (fun n => decide (5 < n)) selectorResults [] []

namespace CommentService

/-- CommentService.js `findComments()`: `none` when no comments section
exists (returns `[]`); otherwise the primary `#content-text` selector's
elements and the fallback selectors' elements.  If the primary selector
yields at least one element its pass is returned unconditionally; otherwise
the fallback chain runs.  The length test is `>= 5`. -/
def findComments
    (dom : Option (List (Option (List Nat)) × List (List (Option (List Nat))))) :
    List (List Nat) :=
  match dom with
  | none => []
  | some (primary, fallbacks) =>
    if primary.isEmpty then findCommentsGo (fun n => decide (5 ≤ n)) fallbacks [] []
    else (collectLoop (fun n => decide (5 ≤ n)) 200 primary [] []).2

end CommentService

/-! ### Locator invariants -/

theorem collectLoop_inv (lenOk : Nat → Bool) (cap : Nat)
    (elems : List (Option (List Nat))) :
    ∀ (seen comments : List (List Nat)),
      (∀ c ∈ comments, c ∈ seen) → comments.Nodup → comments.length < cap →
      (∀ c ∈ (collectLoop lenOk cap elems seen comments).2,
          c ∈ (collectLoop lenOk cap elems seen comments).1) ∧
        (collectLoop lenOk cap elems seen comments).2.Nodup ∧
        (collectLoop lenOk cap elems seen comments).2.length ≤ cap := by
  induction elems with
  | nil =>
    intro seen comments hsub hnd hlt
    exact ⟨hsub, hnd, Nat.le_of_lt hlt⟩
  | cons e rest ih =>
    intro seen comments hsub hnd hlt
    match e with
    | none => exact ih seen comments hsub hnd hlt
    | some t =>
      by_cases hemp : t.isEmpty
      · simp only [collectLoop, hemp, if_pos]
        exact ih seen comments hsub hnd hlt
      · simp only [collectLoop, hemp, if_neg, Bool.false_eq_true, not_false_iff]
        set s := sanitizeCore 2000 t with hs
        by_cases hacc : (lenOk s.length && !(decide (s ∈ seen))) = true
        · simp only [hacc, if_pos]
          have hnotseen : s ∉ seen := by
            have h2 := hacc
            rw [Bool.and_eq_true] at h2
            simpa using h2.2
          have hnotmem : s ∉ comments := fun hc => hnotseen (hsub s hc)
          have hnd' : (comments ++ [s]).Nodup := by
            rw [List.nodup_append]
            exact ⟨hnd, List.nodup_singleton s, by simpa using hnotmem⟩
          have hsub' : ∀ c ∈ comments ++ [s], c ∈ s :: seen := by
            intro c hc
            rcases List.mem_append.mp hc with h | h
            · exact List.mem_cons_of_mem _ (hsub c h)
            · simp at h
              simp [h]
          by_cases hcap : cap ≤ (comments ++ [s]).length
          · simp only [hcap, decide_True, if_pos, decide_eq_true_eq]
            refine ⟨hsub', hnd', ?_⟩
            rw [List.length_append, List.length_singleton]
            omega
          · simp only [decide_eq_true_eq, hcap, if_neg, not_false_iff]
            apply ih (s :: seen) (comments ++ [s]) hsub' hnd'
            rw [List.length_append, List.length_singleton] at hcap ⊢
            omega
        · simp only [hacc, if_neg, Bool.false_eq_true, not_false_iff]
          exact ih seen comments hsub hnd hlt

theorem findCommentsGo_inv (lenOk : Nat → Bool)
    (sels : List (List (Option (List Nat)))) :
    ∀ (seen comments : List (List Nat)),
      (∀ c ∈ comments, c ∈ seen) → comments.Nodup → comments.length < 200 →
      (findCommentsGo lenOk sels seen comments).Nodup ∧
        (findCommentsGo lenOk sels seen comments).length ≤ 200 := by
  induction sels with
  | nil =>
    intro seen comments _ hnd hlt
    exact ⟨hnd, Nat.le_of_lt hlt⟩
  | cons elems rest ih =>
    intro seen comments hsub hnd hlt
    obtain ⟨hsub', hnd', hle'⟩ := collectLoop_inv lenOk 200 elems seen comments hsub hnd hlt
    simp only [findCommentsGo]
    by_cases hpos : 0 < (collectLoop lenOk 200 elems seen comments).2.length
    · simp only [hpos, decide_True, if_pos]
      exact ⟨hnd', hle'⟩
    · simp only [decide_eq_true_eq, hpos, if_neg, not_false_iff]
      have hzero : (collectLoop lenOk 200 elems seen comments).2.length = 0 := by omega
      have hnil : (collectLoop lenOk 200 elems seen comments).2 = [] :=
        List.eq_nil_of_length_eq_zero hzero
      apply ih
      · rw [hnil]; intro c hc; simp at hc
      · rw [hnil]; exact List.nodup_nil
      · rw [hzero]; omega

/-- C6: for every DOM fixture, the comment locator returns no duplicate
texts and at most `maxComments` (200) items — for both the content.js
revision `findComments` and the CommentService.js revision. -/
theorem findComments_nodup_and_bounded :
    ∀ (fixture : List (List (Option (List Nat))))
      (dom : Option (List (Option (List Nat)) × List (List (Option (List Nat))))),
      (findComments fixture).Nodup ∧ (findComments fixture).length ≤ 200 ∧
      (CommentService.findComments dom).Nodup ∧
      (CommentService.findComments dom).length ≤ 200 := by
  intro fixture dom
  obtain ⟨h1, h2⟩ := findCommentsGo_inv (fun n => decide (5 < n)) fixture [] []
    (by intro c hc; simp at hc) List.nodup_nil (by simp)
  refine ⟨h1, h2, ?_⟩
  match dom with
  | none => exact ⟨List.nodup_nil, by simp [CommentService.findComments]⟩
  | some (primary, fallbacks) =>
    by_cases hemp : primary.isEmpty
    · simp only [CommentService.findComments, hemp, if_pos]
      exact findCommentsGo_inv (fun n => decide (5 ≤ n)) fallbacks [] []
        (by intro c hc; simp at hc) List.nodup_nil (by simp)
    · simp only [CommentService.findComments, hemp, Bool.false_eq_true, not_false_iff, if_neg]
      obtain ⟨_, hnd, hle⟩ := collectLoop_inv (fun n => decide (5 ≤ n)) 200 primary [] []
        (by intro c hc; simp at hc) List.nodup_nil (by simp)
      exact ⟨hnd, hle⟩

/-! ### Accept/reject rule for a single candidate (C5)

content.js accepts only when `text.length > 5` — a sanitized text of
exactly 5 characters is rejected there, while CommentService.js accepts it
(`>= 5`). -/

/-- C5 (counterexample): the claim predicts that the 5-character,
never-seen text "abcde" is accepted; content.js `findComments` rejects it
and returns the empty list. -/
theorem five_char_rejected_cex :
    findComments [[some [97, 98, 99, 100, 101]]] = [] ∧
      (sanitizeCore 2000 [97, 98, 99, 100, 101]).length = 5 ∧
      sanitizeCore 2000 [97, 98, 99, 100, 101] = [97, 98, 99, 100, 101] := by
  refine ⟨rfl, rfl, rfl⟩

/-- C5 (amended): a candidate with sanitized text `s` is accepted exactly
when it is not a duplicate and its length passes the revision's minimum
length test — which is the strict `5 < length` in content.js (so a
5-character text is rejected there) and `5 ≤ length` in CommentService.js
(so a 5-character text such as "abcde" is accepted there). -/
theorem candidate_accept_rule :
    ∀ (t : List Nat) (seen : List (List Nat)),
      ((collectLoop (fun n => decide (5 < n)) 200 [some t] seen []).2
          = [sanitizeCore 2000 t] ↔
        5 < (sanitizeCore 2000 t).length ∧ sanitizeCore 2000 t ∉ seen) ∧
      ((collectLoop (fun n => decide (5 ≤ n)) 200 [some t] seen []).2
          = [sanitizeCore 2000 t] ↔
        5 ≤ (sanitizeCore 2000 t).length ∧ sanitizeCore 2000 t ∉ seen) ∧
      CommentService.findComments (some ([some [97, 98, 99, 100, 101]], []))
        = [[97, 98, 99, 100, 101]] := by
  intro t seen
  have hnil : sanitizeCore 2000 ([] : List Nat) = [] := rfl
  refine ⟨?_, ?_, rfl⟩
  · by_cases hemp : t.isEmpty
    · have ht : t = [] := by simpa [List.isEmpty_iff] using hemp
      subst ht
      simp [collectLoop, hnil]
    · by_cases hseen : sanitizeCore 2000 t ∈ seen
      · simp [collectLoop, hemp, hseen]
      · by_cases hlen : 5 < (sanitizeCore 2000 t).length
        · simp [collectLoop, hemp, hseen, hlen]
        · simp [collectLoop, hemp, hseen, hlen]
  · by_cases hemp : t.isEmpty
    · have ht : t = [] := by simpa [List.isEmpty_iff] using hemp
      subst ht
      simp [collectLoop, hnil]
    · by_cases hseen : sanitizeCore 2000 t ∈ seen
      · simp [collectLoop, hemp, hseen]
      · by_cases hlen : 5 ≤ (sanitizeCore 2000 t).length
        · simp [collectLoop, hemp, hseen, hlen]
        · simp [collectLoop, hemp, hseen, hlen]

/-! ## Incremental Loader (content.js `loadAllCommentsWithScrolling`,
CommentService.js `loadCommentsWithScrolling`,
content.js revision `ContentScriptController.loadCommentsWithScrolling`)

The page is reduced to its scroll offset.  One invocation's interactions
with the DOM are an oracle: `containerBottom i` is the absolute bottom of
the comments container measured in iteration `i`, and `findResult k` is the
outcome of the `k`-th `findComments` round (index 0 is the round before the
loop; an `error` means some step of that round threw). -/

structure Page where
  scrollY : Int
  deriving DecidableEq

structure DeepEnv where
  hasContainer : Bool
  containerBottom : Nat → Int
  findResult : Nat → Except Unit (List (List Nat))

/-- Iteration loop shared by content.js (`cap = 200`, 5 attempts, scroll pad
500) and CommentService.js (`cap = 150`, 3 attempts, pad 300): scroll past
the container bottom, run the next `findComments` round, stop when the
count did not grow or reached the cap.  On success the original scroll
offset is restored before returning `comments.slice(0, cap)`; an error
propagates out of the `try` block with the scroll offset left wherever the
last scroll put it (there is no `finally` in these two revisions). -/
def loadLoop (env : DeepEnv) (cap : Nat) (pad : Int) (origin : Int) :
    Nat → Nat → List (List Nat) → Page → Except Unit (List (List Nat)) × Page
  | _, 0, comments, _ => (Except.ok (comments.take cap), { scrollY := origin })
  | i, fuel + 1, comments, _ =>
    let st1 : Page := { scrollY := env.containerBottom i + pad }
    match env.findResult (i + 1) with
    | Except.error e => (Except.error e, st1)
    | Except.ok cs' =>
      if cs'.length ≤ comments.length then (Except.ok (cs'.take cap), { scrollY := origin })
      else if cap ≤ cs'.length then (Except.ok (cs'.take cap), { scrollY := origin })
      else loadLoop env cap pad origin (i + 1) fuel cs' st1

/-- content.js `loadAllCommentsWithScrolling()`. -/
def loadAllCommentsWithScrolling (env : DeepEnv) (st : Page) :
    Except Unit (List (List Nat)) × Page :=
  if env.hasContainer then
    match env.findResult 0 with
    | Except.error e => (Except.error e, st)
    | Except.ok cs0 => loadLoop env 200 500 st.scrollY 0 5 cs0 st
  else (Except.error (), st)

namespace CommentService

/-- CommentService.js `loadCommentsWithScrolling()`: identical structure
with 3 attempts, cap 150 and scroll pad 300. -/
def loadCommentsWithScrolling (env : DeepEnv) (st : Page) :
    Except Unit (List (List Nat)) × Page :=
  if env.hasContainer then
    match env.findResult 0 with
    | Except.error e => (Except.error e, st)
    | Except.ok cs0 => loadLoop env 150 300 st.scrollY 0 3 cs0 st
  else (Except.error (), st)

end CommentService

/-- JavaScript `[...new Set(l)]`: deduplication keeping first occurrences. -/
def dedupKeepFirst : List (List Nat) → List (List Nat) → List (List Nat)
  | [], _ => []
  | x :: xs, seen =>
    if decide (x ∈ seen) then dedupKeepFirst xs seen
    else x :: dedupKeepFirst xs (x :: seen)

/-- Body of the `try` in the unnamed content.js revision
(`ContentScriptController.loadCommentsWithScrolling`): three fixed
iterations, each reading the currently visible comments (`find i`, which
may throw) and then either clicking a load-more control (`eff i = none`,
no scroll change) or scrolling to the document bottom (`eff i = some h`). -/
def part000Go (find : Nat → Except Unit (List (List Nat))) (eff : Nat → Option Int) :
    Nat → Nat → List (List Nat) → Page → Except Unit (List (List Nat)) × Page
  | _, 0, acc, st => (Except.ok acc, st)
  | i, fuel + 1, acc, st =>
    match find i with
    | Except.error e => (Except.error e, st)
    | Except.ok cur =>
      let st' : Page := match eff i with
        | none => st
        | some h => { scrollY := h }
      part000Go find eff (i + 1) fuel (acc ++ cur) st'

namespace ContentScriptController

/-- Unnamed content.js revision `loadCommentsWithScrolling()`: the loop body
runs inside `try { … } finally { window.scrollTo(0, originalScrollTop) }`,
so the original scroll offset is restored on both the success and the error
exit; the success value is the accumulated list deduplicated via a `Set`. -/
def loadCommentsWithScrolling (find : Nat → Except Unit (List (List Nat)))
    (eff : Nat → Option Int) (st : Page) : Except Unit (List (List Nat)) × Page :=
  match part000Go find eff 0 3 [] st with
  | (Except.ok comments, _) => (Except.ok (dedupKeepFirst comments []), { scrollY := st.scrollY })
  | (Except.error e, _) => (Except.error e, { scrollY := st.scrollY })

end ContentScriptController

/-! ### Scroll restoration (C1) -/

theorem loadLoop_ok_scroll (env : DeepEnv) (cap : Nat) (pad origin : Int) :
    ∀ (fuel i : Nat) (comments : List (List Nat)) (st : Page)
      (r : List (List Nat)) (st' : Page),
      loadLoop env cap pad origin i fuel comments st = (Except.ok r, st') →
      st'.scrollY = origin := by
  intro fuel
  induction fuel with
  | zero =>
    intro i comments st r st' h
    simp only [loadLoop] at h
    injection h with h1 h2
    rw [← h2]
  | succ fuel ih =>
    intro i comments st r st' h
    cases hf : env.findResult (i + 1) with
    | error e =>
      simp only [loadLoop, hf] at h
      injection h with h1 h2
      exact Except.noConfusion h1
    | ok cs' =>
      simp only [loadLoop, hf] at h
      by_cases h1 : cs'.length ≤ comments.length
      · rw [if_pos h1] at h
        injection h with ha hb
        rw [← hb]
      · rw [if_neg h1] at h
        by_cases h2 : cap ≤ cs'.length
        · rw [if_pos h2] at h
          injection h with ha hb
          rw [← hb]
        · rw [if_neg h2] at h
          exact ih (i + 1) cs' _ r st' h

/-- Environment used by the C1 counterexample: the container exists at
absolute bottom 100, the pre-loop `findComments` round yields no comments,
and the first in-loop round throws — after the loop has already scrolled to
100 + 500 = 600. -/
def envCex : DeepEnv where
  hasContainer := true
  containerBottom := fun _ => 100
  findResult := fun k => if k == 0 then Except.ok [] else Except.error ()

/-- C1 (counterexample): starting at scroll offset 0, a mid-iteration throw
leaves content.js `loadAllCommentsWithScrolling` at scroll offset 600 — the
recorded origin 0 is not restored on the error exit path. -/
theorem scroll_not_restored_cex :
    ((loadAllCommentsWithScrolling envCex ⟨0⟩).2).scrollY = 600 ∧
      (loadAllCommentsWithScrolling envCex ⟨0⟩).1 = Except.error () ∧
      ((600 : Int) ≠ 0) := by
  refine ⟨rfl, rfl, by decide⟩

/-- C1 (amended): the unnamed content.js revision
(`ContentScriptController.loadCommentsWithScrolling`) restores the original
scroll offset on every exit path, including a mid-iteration throw
(`finally` semantics); the content.js and CommentService.js revisions
restore it only on the success path — on a throw the restore is skipped. -/
theorem scroll_restore_amended :
    (∀ (find : Nat → Except Unit (List (List Nat))) (eff : Nat → Option Int) (st : Page),
      ((ContentScriptController.loadCommentsWithScrolling find eff st).2).scrollY
        = st.scrollY) ∧
    (∀ (env : DeepEnv) (st : Page) (r : List (List Nat)) (st' : Page),
      loadAllCommentsWithScrolling env st = (Except.ok r, st') → st'.scrollY = st.scrollY) ∧
    (∀ (env : DeepEnv) (st : Page) (r : List (List Nat)) (st' : Page),
      CommentService.loadCommentsWithScrolling env st = (Except.ok r, st') →
        st'.scrollY = st.scrollY) := by
  refine ⟨?_, ?_, ?_⟩
  · intro find eff st
    unfold ContentScriptController.loadCommentsWithScrolling
    cases part000Go find eff 0 3 [] st with
    | mk r p =>
      cases r with
      | error e => rfl
      | ok comments => rfl
  · intro env st r st' h
    by_cases hc : env.hasContainer
    · cases hf : env.findResult 0 with
      | error e =>
        simp only [loadAllCommentsWithScrolling, hc, if_pos, hf] at h
        injection h with h1 h2
        exact Except.noConfusion h1
      | ok cs0 =>
        simp only [loadAllCommentsWithScrolling, hc, if_pos, hf] at h
        exact loadLoop_ok_scroll env 200 500 st.scrollY 5 0 cs0 st r st' h
    · simp only [loadAllCommentsWithScrolling, hc, if_neg, Bool.false_eq_true,
        not_false_iff] at h
      injection h with h1 h2
      exact Except.noConfusion h1
  · intro env st r st' h
    by_cases hc : env.hasContainer
    · cases hf : env.findResult 0 with
      | error e =>
        simp only [CommentService.loadCommentsWithScrolling, hc, if_pos, hf] at h
        injection h with h1 h2
        exact Except.noConfusion h1
      | ok cs0 =>
        simp only [CommentService.loadCommentsWithScrolling, hc, if_pos, hf] at h
        exact loadLoop_ok_scroll env 150 300 st.scrollY 3 0 cs0 st r st' h
    · simp only [CommentService.loadCommentsWithScrolling, hc, if_neg, Bool.false_eq_true,
        not_false_iff] at h
      injection h with h1 h2
      exact Except.noConfusion h1

/-- Environment used by the C1 witness: every `findComments` round succeeds
with no comments, so the loop converges immediately and succeeds. -/
def envOk : DeepEnv where
  hasContainer := true
  containerBottom := fun _ => 100
  findResult := fun _ => Except.ok []

/-- Witness for the amended C1 theorem: on the always-succeeding
environment, starting at scroll offset 7, the success path of content.js
restores offset 7. -/
theorem scroll_restore_amended_witness :
    loadAllCommentsWithScrolling envOk ⟨7⟩ = (Except.ok [], ⟨7⟩) ∧
      (⟨7⟩ : Page).scrollY = (⟨7⟩ : Page).scrollY :=
  ⟨rfl, scroll_restore_amended.2.1 envOk ⟨7⟩ [] ⟨7⟩ rfl⟩

/-! ### Termination and cap enforcement of the loader (C9) -/

theorem loadLoop_ok_length (env : DeepEnv) (cap : Nat) (pad origin : Int) :
    ∀ (fuel i : Nat) (comments : List (List Nat)) (st : Page)
      (r : List (List Nat)) (st' : Page),
      loadLoop env cap pad origin i fuel comments st = (Except.ok r, st') →
      r.length ≤ cap := by
  intro fuel
  induction fuel with
  | zero =>
    intro i comments st r st' h
    simp only [loadLoop] at h
    injection h with h1 h2
    injection h1 with h1
    rw [← h1, List.length_take]
    exact min_le_left _ _
  | succ fuel ih =>
    intro i comments st r st' h
    cases hf : env.findResult (i + 1) with
    | error e =>
      simp only [loadLoop, hf] at h
      injection h with h1 h2
      exact Except.noConfusion h1
    | ok cs' =>
      simp only [loadLoop, hf] at h
      by_cases h1 : cs'.length ≤ comments.length
      · rw [if_pos h1] at h
        injection h with ha hb
        injection ha with ha
        rw [← ha, List.length_take]
        exact min_le_left _ _
      · rw [if_neg h1] at h
        by_cases h2 : cap ≤ cs'.length
        · rw [if_pos h2] at h
          injection h with ha hb
          injection ha with ha
          rw [← ha, List.length_take]
          exact min_le_left _ _
        · rw [if_neg h2] at h
          exact ih (i + 1) cs' _ r st' h

/-- Against an environment whose `findComments` rounds all succeed with
strictly growing counts, the loop never converges: it runs until the count
reaches the cap or the attempt bound is exhausted, whichever comes first. -/
theorem loadLoop_growth (env : DeepEnv) (cap : Nat) (pad origin : Int)
    (valf : Nat → List (List Nat))
    (hok : ∀ k, env.findResult k = Except.ok (valf k))
    (hgrow : ∀ k, (valf k).length < (valf (k + 1)).length) :
    ∀ (fuel i : Nat) (st : Page),
      ∃ m, i ≤ m ∧ m ≤ i + fuel ∧
        (loadLoop env cap pad origin i fuel (valf i) st).1
          = Except.ok ((valf m).take cap) ∧
        (∀ j, i < j → j < m → (valf j).length < cap) ∧
        (cap ≤ (valf m).length ∨ m = i + fuel) := by
  intro fuel
  induction fuel with
  | zero =>
    intro i st
    refine ⟨i, Nat.le_refl i, by omega, ?_, ?_, Or.inr (by omega)⟩
    · simp [loadLoop]
    · intro j hj1 hj2
      omega
  | succ fuel ih =>
    intro i st
    have hconv : ¬ ((valf (i + 1)).length ≤ (valf i).length) := by
      have := hgrow i
      omega
    by_cases hcap : cap ≤ (valf (i + 1)).length
    · refine ⟨i + 1, by omega, by omega, ?_, ?_, Or.inl hcap⟩
      · simp only [loadLoop, hok (i + 1), if_neg hconv, if_pos hcap]
      · intro j hj1 hj2
        omega
    · obtain ⟨m, hm1, hm2, hm3, hm4, hm5⟩ :=
        ih (i + 1) ({ scrollY := env.containerBottom i + pad })
      refine ⟨m, by omega, by omega, ?_, ?_, ?_⟩
      · simp only [loadLoop, hok (i + 1), if_neg hconv, if_neg hcap]
        exact hm3
      · intro j hj1 hj2
        by_cases hji : j = i + 1
        · subst hji
          omega
        · exact hm4 j (by omega) hj2
      · rcases hm5 with h | h
        · exact Or.inl h
        · exact Or.inr (by omega)

/-- C9: the incremental loader always terminates within the configured
attempt bound (5 attempts in content.js, 3 in CommentService.js — the loop
is structurally bounded and consults the environment only up to that depth)
with a result of at most the global cap (200 and 150 respectively); against
a DOM model whose reported comment count strictly grows on every query, it
stops at the first round whose count reaches the cap, or after the last
attempt, whichever comes first. -/
theorem deep_loader_bounds :
    (∀ (env : DeepEnv) (st : Page) (r : List (List Nat)) (st' : Page),
      loadAllCommentsWithScrolling env st = (Except.ok r, st') → r.length ≤ 200) ∧
    (∀ (env : DeepEnv) (st : Page) (r : List (List Nat)) (st' : Page),
      CommentService.loadCommentsWithScrolling env st = (Except.ok r, st') →
        r.length ≤ 150) ∧
    (∀ (env : DeepEnv) (st : Page) (valf : Nat → List (List Nat)),
      env.hasContainer = true →
      (∀ k, env.findResult k = Except.ok (valf k)) →
      (∀ k, (valf k).length < (valf (k + 1)).length) →
      ∃ m, m ≤ 5 ∧
        (loadAllCommentsWithScrolling env st).1 = Except.ok ((valf m).take 200) ∧
        (∀ j, 0 < j → j < m → (valf j).length < 200) ∧
        (200 ≤ (valf m).length ∨ m = 5)) ∧
    (∀ (env : DeepEnv) (st : Page) (valf : Nat → List (List Nat)),
      env.hasContainer = true →
      (∀ k, env.findResult k = Except.ok (valf k)) →
      (∀ k, (valf k).length < (valf (k + 1)).length) →
      ∃ m, m ≤ 3 ∧
        (CommentService.loadCommentsWithScrolling env st).1
          = Except.ok ((valf m).take 150) ∧
        (∀ j, 0 < j → j < m → (valf j).length < 150) ∧
        (150 ≤ (valf m).length ∨ m = 3)) := by
  refine ⟨?_, ?_, ?_, ?_⟩
  · intro env st r st' h
    by_cases hc : env.hasContainer
    · cases hf : env.findResult 0 with
      | error e =>
        simp only [loadAllCommentsWithScrolling, hc, if_pos, hf] at h
        injection h with h1 h2
        exact Except.noConfusion h1
      | ok cs0 =>
        simp only [loadAllCommentsWithScrolling, hc, if_pos, hf] at h
        exact loadLoop_ok_length env 200 500 st.scrollY 5 0 cs0 st r st' h
    · simp only [loadAllCommentsWithScrolling, hc, if_neg, Bool.false_eq_true,
        not_false_iff] at h
      injection h with h1 h2
      exact Except.noConfusion h1
  · intro env st r st' h
    by_cases hc : env.hasContainer
    · cases hf : env.findResult 0 with
      | error e =>
        simp only [CommentService.loadCommentsWithScrolling, hc, if_pos, hf] at h
        injection h with h1 h2
        exact Except.noConfusion h1
      | ok cs0 =>
        simp only [CommentService.loadCommentsWithScrolling, hc, if_pos, hf] at h
        exact loadLoop_ok_length env 150 300 st.scrollY 3 0 cs0 st r st' h
    · simp only [CommentService.loadCommentsWithScrolling, hc, if_neg, Bool.false_eq_true,
        not_false_iff] at h
      injection h with h1 h2
      exact Except.noConfusion h1
  · intro env st valf hc hok hgrow
    obtain ⟨m, hm0, hm1, hm2, hm3, hm4⟩ :=
      loadLoop_growth env 200 500 st.scrollY valf hok hgrow 5 0 st
    refine ⟨m, by omega, ?_, hm3, hm4⟩
    simp only [loadAllCommentsWithScrolling, hc, if_pos, hok 0]
    exact hm2
  · intro env st valf hc hok hgrow
    obtain ⟨m, hm0, hm1, hm2, hm3, hm4⟩ :=
      loadLoop_growth env 150 300 st.scrollY valf hok hgrow 3 0 st
    refine ⟨m, by omega, ?_, hm3, hm4⟩
    simp only [CommentService.loadCommentsWithScrolling, hc, if_pos, hok 0]
    exact hm2

/-- Environment used by the C9 witness: at round `k`, `findComments` reports
the `k + 1` singleton comments `[0] … [k]` — one more on every query. -/
def envGrow : DeepEnv where
  hasContainer := true
  containerBottom := fun _ => 100
  findResult := fun k => Except.ok ((List.range (k + 1)).map (fun j => [j]))

/-- Witness for the C9 theorem: on the always-growing environment the
content.js loader succeeds (running all five attempts, never reaching the
cap of 200) and its result respects the cap. -/
theorem deep_loader_bounds_witness :
    loadAllCommentsWithScrolling envGrow ⟨0⟩
        = (Except.ok [[0], [1], [2], [3], [4], [5]], ⟨0⟩) ∧
      ([[0], [1], [2], [3], [4], [5]] : List (List Nat)).length ≤ 200 :=
  ⟨rfl, deep_loader_bounds.1 envGrow ⟨0⟩ [[0], [1], [2], [3], [4], [5]] ⟨0⟩ rfl⟩

/-! ## UI Coordinator (content.js `summarizeCommentsHandler`,
`deepSummarizeCommentsHandler`)

The background response object has either a truthy `error`, a truthy
`summary`, or neither; error-message strings are abstracted into `JsError`.
The summarization capability is `none` when its promise never settles or
`some (t, r)` when it settles at millisecond `t` with response `r`; the
`Promise.race` against the timeout timer is evaluated on a simulated
clock. -/

inductive RespShape where
  | errMsg (m : List Nat)
  | summary (s : List Nat)
  | empty
  deriving DecidableEq

inductive JsError where
  | requestTimedOut
  | noCommentsFound
  | noVisibleComments
  | noSummaryReturned
  | apiError (m : List Nat)
  | loadFailed
  deriving DecidableEq

inductive Rendered where
  | summaryBox (content : List Nat) (count : Nat)
  | errorBox (e : JsError)
  deriving DecidableEq

/-- Visible UI outcome of one handler run: what is rendered in place of the
loading indicator, and whether the entry-point buttons are enabled again
(set in the handler's `finally`). -/
structure UI where
  rendered : Rendered
  buttonsEnabled : Bool
  deriving DecidableEq

/-- `Promise.race([messagePromise, timeoutPromise])` on a simulated clock:
if the capability never settles the timer rejects with `Request timed out`
at `timeoutMs`; if it settles before the timer its response wins at its
settle time. -/
def promiseRace (cap : Option (Nat × RespShape)) (timeoutMs : Nat) :
    Except JsError RespShape × Nat :=
  match cap with
  | none => (Except.error JsError.requestTimedOut, timeoutMs)
  | some (t, r) =>
    if t < timeoutMs then (Except.ok r, t)
    else (Except.error JsError.requestTimedOut, timeoutMs)

/-- content.js `loadAllCommentsWithoutScrolling()`: the currently visible
comments, throwing when there are none, capped at 100. -/
def loadAllCommentsWithoutScrolling (cs : List (List Nat)) :
    Except JsError (List (List Nat)) :=
  if cs.isEmpty then Except.error JsError.noVisibleComments
  else Except.ok (cs.take 100)

/-- Environment of one quick-summarize run: the `findComments` result and
the summarization capability. -/
structure QuickEnv where
  domComments : List (List Nat)
  capability : Option (Nat × RespShape)

/-- content.js `summarizeCommentsHandler()`: disable the button, load the
visible comments, race the background request against a 60 s timer, render
the summary or the error, and re-enable the button in `finally`.  The
result is the final UI state plus the simulated time at which the outcome
rendered. -/
def summarizeCommentsHandler (env : QuickEnv) : UI × Nat :=
  match loadAllCommentsWithoutScrolling env.domComments with
  | Except.error e => ({ rendered := Rendered.errorBox e, buttonsEnabled := true }, 0)
  | Except.ok comments =>
    if comments.isEmpty then
      ({ rendered := Rendered.errorBox JsError.noCommentsFound, buttonsEnabled := true }, 0)
    else
      match promiseRace env.capability 60000 with
      | (Except.error e, tEnd) =>
        ({ rendered := Rendered.errorBox e, buttonsEnabled := true }, tEnd)
      | (Except.ok r, tEnd) =>
        match r with
        | RespShape.errMsg m =>
          ({ rendered := Rendered.errorBox (JsError.apiError m), buttonsEnabled := true }, tEnd)
        | RespShape.summary s =>
          ({ rendered := Rendered.summaryBox (sanitizeCore 2000 s) comments.length,
             buttonsEnabled := true }, tEnd)
        | RespShape.empty =>
          ({ rendered := Rendered.errorBox JsError.noSummaryReturned,
             buttonsEnabled := true }, tEnd)

/-- content.js `deepSummarizeCommentsHandler()`: like the quick handler but
collecting through `loadAllCommentsWithScrolling` and racing against a 90 s
timer. -/
def deepSummarizeCommentsHandler (env : DeepEnv) (cap : Option (Nat × RespShape))
    (st : Page) : UI × Nat :=
  match (loadAllCommentsWithScrolling env st).1 with
  | Except.error _ =>
    ({ rendered := Rendered.errorBox JsError.loadFailed, buttonsEnabled := true }, 0)
  | Except.ok comments =>
    if comments.isEmpty then
      ({ rendered := Rendered.errorBox JsError.noCommentsFound, buttonsEnabled := true }, 0)
    else
      match promiseRace cap 90000 with
      | (Except.error e, tEnd) =>
        ({ rendered := Rendered.errorBox e, buttonsEnabled := true }, tEnd)
      | (Except.ok r, tEnd) =>
        match r with
        | RespShape.errMsg m =>
          ({ rendered := Rendered.errorBox (JsError.apiError m), buttonsEnabled := true }, tEnd)
        | RespShape.summary s =>
          ({ rendered := Rendered.summaryBox (sanitizeCore 2000 s) comments.length,
             buttonsEnabled := true }, tEnd)
        | RespShape.empty =>
          ({ rendered := Rendered.errorBox JsError.noSummaryReturned,
             buttonsEnabled := true }, tEnd)

/-- C3: when the summarization capability never settles, the quick handler
renders the Timeout error as a normal error box at 60 s with the buttons
re-enabled, and the deep handler does the same at 90 s — a rendered error
state, not a crash (both handlers are total functions). -/
theorem summarize_timeout_surfaced :
    (∀ env : QuickEnv, env.capability = none → env.domComments ≠ [] →
      summarizeCommentsHandler env
        = ({ rendered := Rendered.errorBox JsError.requestTimedOut,
             buttonsEnabled := true }, 60000)) ∧
    (∀ (env : DeepEnv) (st : Page) (r : List (List Nat)),
      (loadAllCommentsWithScrolling env st).1 = Except.ok r → r ≠ [] →
      deepSummarizeCommentsHandler env none st
        = ({ rendered := Rendered.errorBox JsError.requestTimedOut,
             buttonsEnabled := true }, 90000)) := by
  constructor
  · intro env hcap hne
    have hnemp : env.domComments.isEmpty = false := by
      cases h : env.domComments with
      | nil => exact absurd h hne
      | cons a l => rfl
    have htake : (env.domComments.take 100).isEmpty = false := by
      cases h : env.domComments with
      | nil => exact absurd h hne
      | cons a l => rfl
    simp only [summarizeCommentsHandler, loadAllCommentsWithoutScrolling, hnemp,
      Bool.false_eq_true, if_neg, not_false_iff, htake, hcap, promiseRace]
  · intro env st r hload hne
    have hnemp : r.isEmpty = false := by
      cases h : r with
      | nil => exact absurd h hne
      | cons a l => rfl
    simp only [deepSummarizeCommentsHandler, hload, hnemp, Bool.false_eq_true,
      if_neg, not_false_iff, promiseRace]

/-- Witness for the C3 theorem: a concrete run with one visible comment and
a capability that never settles renders the Timeout error at 60 s with the
buttons re-enabled. -/
theorem summarize_timeout_surfaced_witness :
    (QuickEnv.mk [[104, 101, 108, 108, 111, 33]] none).capability = none ∧
      (QuickEnv.mk [[104, 101, 108, 108, 111, 33]] none).domComments ≠ [] ∧
      summarizeCommentsHandler (QuickEnv.mk [[104, 101, 108, 108, 111, 33]] none)
        = ({ rendered := Rendered.errorBox JsError.requestTimedOut,
             buttonsEnabled := true }, 60000) :=
  ⟨rfl, by decide,
    (summarize_timeout_surfaced.1 (QuickEnv.mk [[104, 101, 108, 108, 111, 33]] none)
      rfl (by decide))⟩

/-! ## Reply Expander (CommentService.js `expandReplyThreads`, content.js
`expandReplyThreads`)

A disclosure control is `true` when it is visible and not disabled (only
those are clicked).  An invocation started at simulated time `t` produces a
deterministic schedule: the list of click times and the time at which the
final settle delay completes.  Neither revision reads or writes any debounce
or pending-timer state, so the schedule of one invocation does not depend
on any other invocation. -/

/-- CommentService.js batch loop: within a batch each clickable control is
clicked and followed by a 100 ms delay; after each batch that is not the
last a further 200 ms delay; after the loop a 1000 ms settle delay
(`REPLY_EXPANSION_DELAY`).  `j` is the element index and `total` the number
of controls, used for the `i + batchSize < replyButtons.length` test. -/
def expandBatchesAux : List Bool → Nat → Nat → Nat → List Nat × Nat
  | [], _, _, t => ([], t + 1000)
  | b :: rest, j, total, t =>
    let step : List Nat × Nat := if b then ([t], t + 100) else ([], t)
    let t2 : Nat :=
      if j % 3 == 2 && decide (j + 1 < total) then step.2 + 200 else step.2
    let r := expandBatchesAux rest (j + 1) total t2
    (step.1 ++ r.1, r.2)

namespace CommentService

/-- CommentService.js `expandReplyThreads()` started at time `t`: the click
times and the completion time of the final settle delay. -/
def expandReplyThreads (buttons : List Bool) (t : Nat) : List Nat × Nat :=
  expandBatchesAux buttons 0 buttons.length t

end CommentService

/-- content.js `expandReplyThreads()` started at time `t`: each clickable
control is clicked with a 200 ms delay after it, then a 1500 ms settle
delay. -/
def expandReplyThreadsSchedule : List Bool → Nat → List Nat × Nat
  | [], t => ([], t + 1500)
  | b :: rest, t =>
    if b then
      let r := expandReplyThreadsSchedule rest (t + 200)
      (t :: r.1, r.2)
    else expandReplyThreadsSchedule rest t

/-- Every invocation clicks every clickable control: nothing is ever
cancelled, whatever other invocations are in flight. -/
theorem expandBatchesAux_clicks (buttons : List Bool) :
    ∀ (j total t : Nat),
      (expandBatchesAux buttons j total t).1.length = buttons.count true := by
  induction buttons with
  | nil => intro j total t; rfl
  | cons b rest ih =>
    intro j total t
    cases b with
    | false =>
      simp only [expandBatchesAux, List.length_append, ih]
      simp [List.count_cons]
    | true =>
      simp only [expandBatchesAux, List.length_append, ih]
      simp [List.count_cons]
      omega

/-- C4: the reply expander is not debounced.  With a single clickable
control, an invocation at time 0 clicks at 0 and completes its settle delay
at 1100 ms (100 ms post-click delay plus the 1000 ms settle); a second
invocation at time 50 — well inside the first invocation's window — is not
cancelled and not delayed: it performs its own click at 50, so the two
expansion passes overlap instead of collapsing into one.  The content.js
revision behaves the same way (settle window 1700 ms). -/
theorem expand_no_debounce_at_failing_input :
    (CommentService.expandReplyThreads [true] 0).1 = [0] ∧
      (CommentService.expandReplyThreads [true] 0).2 = 1100 ∧
      (CommentService.expandReplyThreads [true] 50).1 = [50] ∧
      50 < (CommentService.expandReplyThreads [true] 0).2 ∧
      (expandReplyThreadsSchedule [true] 0).1 = [0] ∧
      (expandReplyThreadsSchedule [true] 0).2 = 1700 ∧
      (expandReplyThreadsSchedule [true] 50).1 = [50] ∧
      50 < (expandReplyThreadsSchedule [true] 0).2 := by
  refine ⟨rfl, rfl, rfl, by decide, rfl, rfl, rfl, by decide⟩

/-! ## Navigation Monitor (content.js `NavigationHandler.handleNavigation`,
content-refactored.js `NavigationHandler.handleNavigation`, and the
unnamed content.js revision's `NavigationHandler.handleNavigation`)

The observable state: the recorded URL, the cleanup registry, whether
transient UI (summary/loading boxes) is present, and whether a delayed
re-initialization has been scheduled. -/

structure NavState where
  currentUrl : List Nat
  cleanupRegistry : List Nat
  uiInjected : Bool
  reinitScheduled : Bool
  deriving DecidableEq

namespace NavigationHandler

/-- content.js `NavigationHandler.handleNavigation()`: only when
`location.href` differs from the recorded URL does it record the new URL,
remove the summary boxes, run and clear the cleanup registry, and schedule
re-initialization; otherwise it does nothing. -/
def handleNavigation (href : List Nat) (s : NavState) : NavState :=
  if href ≠ s.currentUrl then
    { currentUrl := href, cleanupRegistry := [], uiInjected := false,
      reinitScheduled := true }
  else s

/-- content-refactored.js `NavigationHandler.handleNavigation()` throttle
callback after the 100 ms timer fires: the same compare-then-teardown. -/
def handleNavigationFire (href : List Nat) (s : NavState) : NavState :=
  if href ≠ s.currentUrl then
    { currentUrl := href, cleanupRegistry := [], uiInjected := false,
      reinitScheduled := true }
  else s

end NavigationHandler

/-- State of the unnamed revision's `ContentScriptController`: it records no
URL at all. -/
structure CtrlState where
  isInitialized : Bool
  uiInjected : Bool
  reinitScheduled : Bool
  deriving DecidableEq

/-- The pathname "/watch". -/
def watchPath : List Nat := [47, 119, 97, 116, 99, 104]

namespace ContentScriptController

/-- Unnamed revision's throttle callback: it compares only
`location.pathname` against "/watch" and, when on a watch page, always runs
`controller.handleNavigation()` — clear the initialized flag, remove the
summary boxes, schedule re-initialization — without ever comparing the URL
to a recorded one. -/
def handleNavigationFire (pathname : List Nat) (s : CtrlState) : CtrlState :=
  if pathname = watchPath then
    { isInitialized := false, uiInjected := false, reinitScheduled := true }
  else s

end ContentScriptController

/-- C7 (counterexample): in the unnamed revision, a navigation signal on a
watch page whose URL has not changed (the handler never reads the URL, so
in particular when it equals whatever was last seen) still tears down: the
injected UI there before the signal is removed and a teardown/reinit cycle
is performed, contradicting the claim that such a signal produces no
teardown. -/
theorem nav_unchanged_teardown_cex :
    ContentScriptController.handleNavigationFire watchPath ⟨true, true, false⟩
        ≠ ⟨true, true, false⟩ ∧
      (ContentScriptController.handleNavigationFire watchPath
          ⟨true, true, false⟩).uiInjected = false ∧
      (ContentScriptController.handleNavigationFire watchPath
          ⟨true, true, false⟩).reinitScheduled = true := by
  refine ⟨by decide, rfl, rfl⟩

/-- C7 (amended): in content.js and content-refactored.js a navigation
signal with `location.href` equal to the recorded URL produces no teardown —
the handler leaves the whole state (registry, injected UI, recorded URL)
unchanged; in the unnamed revision the handler compares only the pathname,
so on a watch page it performs the teardown/reinit cycle even when the URL
is unchanged. -/
theorem nav_unchanged_no_teardown_amended :
    (∀ (href : List Nat) (s : NavState), href = s.currentUrl →
      NavigationHandler.handleNavigation href s = s) ∧
    (∀ (href : List Nat) (s : NavState), href = s.currentUrl →
      NavigationHandler.handleNavigationFire href s = s) ∧
    (∀ s : CtrlState,
      ContentScriptController.handleNavigationFire watchPath s
        = ⟨false, false, true⟩) := by
  refine ⟨?_, ?_, ?_⟩
  · intro href s h
    simp [NavigationHandler.handleNavigation, h]
  · intro href s h
    simp [NavigationHandler.handleNavigationFire, h]
  · intro s
    simp [ContentScriptController.handleNavigationFire]

/-- Witness for the amended C7 theorem: a concrete state whose recorded URL
equals the signalled URL is returned unchanged by the content.js handler. -/
theorem nav_unchanged_no_teardown_amended_witness :
    ([104] : List Nat) = (NavState.mk [104] [1, 2] true false).currentUrl ∧
      NavigationHandler.handleNavigation [104] (NavState.mk [104] [1, 2] true false)
        = NavState.mk [104] [1, 2] true false :=
  ⟨rfl, nav_unchanged_no_teardown_amended.1 [104] (NavState.mk [104] [1, 2] true false) rfl⟩

/-! ## Per-tab rate limiting (background.js `checkRateLimit`,
`RateLimitManager.checkRateLimit`)

One tab's recorded request history is the list of timestamps stored in the
`RATE_LIMIT.requests` map (respectively the manager's map).  Both revisions
are the same algorithm: filter the stored timestamps to those within the
last 60 000 ms, reject when 10 or more remain — leaving the stored history
untouched (the first revision throws, the second returns `false`, both
before the `set`) — and otherwise store the filtered list with the current
time appended. -/

/-- The `time => now - time < RATE_LIMIT.windowMs` filter predicate. -/
def inWindow (now t : Nat) : Bool := decide (now - t < 60000)

/-- A timestamp within the rolling 60-second window ending at `T`. -/
def inRollingWindow (T t : Nat) : Bool := decide (t ≤ T) && decide (T - t < 60000)

/-- background.js `checkRateLimit(tabId)` for one tab, returning whether the
request is accepted together with the tab's stored history afterwards. -/
def checkRateLimit (now : Nat) (tabRequests : List Nat) : Bool × List Nat :=
  let recentRequests := tabRequests.filter (inWindow now)
  if decide (10 ≤ recentRequests.length) then (false, tabRequests)
  else (true, recentRequests ++ [now])

/-- A tab's sequence of summarize requests folded through `checkRateLimit`:
the accepted request times and the final stored history. -/
def processRequests : List Nat → List Nat → List Nat × List Nat
  | [], h => ([], h)
  | now :: rest, h =>
    let c := checkRateLimit now h
    let r := processRequests rest c.2
    (if c.1 then now :: r.1 else r.1, r.2)

/-! ### Rate-limit invariant -/

theorem inWindow_mono {lastNow now t : Nat} (hle : lastNow ≤ now)
    (h : inWindow now t = true) : inWindow lastNow t = true := by
  unfold inWindow at h ⊢
  rw [decide_eq_true_eq] at h ⊢
  omega

theorem filter_window_eq {lastNow now : Nat} (hle : lastNow ≤ now) (l : List Nat) :
    l.filter (inWindow now) = (l.filter (inWindow lastNow)).filter (inWindow now) := by
  rw [List.filter_filter]
  apply List.filter_congr
  intro a _
  cases h : inWindow now a with
  | false => simp
  | true => simp [inWindow_mono hle h]

/-- Induction step invariant: every accepted time within the window of the
most recent request is still recorded (with multiplicity) in the stored
history. -/
theorem processRequests_bounded (reqs : List Nat) :
    ∀ (h acc : List Nat) (lastNow : Nat),
      reqs.Pairwise (· ≤ ·) →
      (∀ r ∈ reqs, lastNow ≤ r) →
      (∀ t ∈ acc, t ≤ lastNow) →
      (acc.filter (inWindow lastNow)).Sublist h →
      (∀ T, ((acc.filter (inRollingWindow T)).length ≤ 10)) →
      ∀ T, (((acc ++ (processRequests reqs h).1).filter (inRollingWindow T)).length ≤ 10) := by
  induction reqs with
  | nil =>
    intro h acc lastNow _ _ _ _ hbound T
    simpa [processRequests] using hbound T
  | cons now rest ih =>
    intro h acc lastNow hpw hfirst hacc hsub hbound
    have hlast : lastNow ≤ now := hfirst now (List.mem_cons_self _ _)
    have hrest : ∀ r ∈ rest, now ≤ r := (List.pairwise_cons.mp hpw).1
    have hpw' : rest.Pairwise (· ≤ ·) := (List.pairwise_cons.mp hpw).2
    have hsubnow : (acc.filter (inWindow now)).Sublist (h.filter (inWindow now)) := by
      rw [filter_window_eq hlast acc]
      exact (hsub.filter (inWindow now))
    by_cases hrej : 10 ≤ (h.filter (inWindow now)).length
    · -- rejected: stored history and accepted list unchanged
      have hcrl : checkRateLimit now h = (false, h) := by
        unfold checkRateLimit
        rw [if_pos (by simpa using hrej)]
      have hres : processRequests (now :: rest) h = processRequests rest h := by
        simp [processRequests, hcrl]
      rw [hres]
      apply ih h acc now hpw' hrest
      · intro t ht
        exact Nat.le_trans (hacc t ht) hlast
      · exact List.Sublist.trans hsubnow (List.filter_sublist h)
      · exact hbound
    · -- accepted
      have hlt : (h.filter (inWindow now)).length ≤ 9 := by omega
      have hcrl : checkRateLimit now h = (true, h.filter (inWindow now) ++ [now]) := by
        unfold checkRateLimit
        rw [if_neg (by simpa using hrej)]
      have hres : processRequests (now :: rest) h
          = (now :: (processRequests rest (h.filter (inWindow now) ++ [now])).1,
             (processRequests rest (h.filter (inWindow now) ++ [now])).2) := by
        simp [processRequests, hcrl]
      rw [hres]
      intro T
      have hkey := ih (h.filter (inWindow now) ++ [now]) (acc ++ [now]) now hpw' hrest
        (by
          intro t ht
          rcases List.mem_append.mp ht with h1 | h1
          · exact Nat.le_trans (hacc t h1) hlast
          · simp at h1
            omega)
        (by
          rw [List.filter_append]
          have hnow : ([now] : List Nat).filter (inWindow now) = [now] := by
            simp [inWindow]
          rw [hnow]
          exact List.Sublist.append hsubnow (List.Sublist.refl [now]))
        (by
          intro T'
          rw [List.filter_append]
          by_cases hT' : inRollingWindow T' now = true
          · have hmono : (acc.filter (inRollingWindow T')).length
                ≤ (acc.filter (inWindow now)).length := by
              rw [← List.countP_eq_length_filter, ← List.countP_eq_length_filter]
              apply List.countP_mono_left
              intro a ha hwin
              unfold inRollingWindow at hwin
              rw [Bool.and_eq_true, decide_eq_true_eq, decide_eq_true_eq] at hwin
              unfold inWindow
              rw [decide_eq_true_eq]
              have h1 : a ≤ lastNow := hacc a ha
              unfold inRollingWindow at hT'
              rw [Bool.and_eq_true, decide_eq_true_eq, decide_eq_true_eq] at hT'
              omega
            have hlen2 : (acc.filter (inWindow now)).length
                ≤ (h.filter (inWindow now)).length := hsubnow.length_le
            have hone : (([now] : List Nat).filter (inRollingWindow T')).length ≤ 1 := by
              simpa using List.length_filter_le (inRollingWindow T') [now]
            rw [List.length_append]
            omega
          · have hnone : ([now] : List Nat).filter (inRollingWindow T') = [] := by
              simp [hT']
            rw [hnone]
            simpa using hbound T')
        T
      rw [List.append_assoc] at hkey
      simpa using hkey

/-- C10: per-tab rate limiting of the background script: over any
chronologically ordered request sequence for one tab, at most 10 requests
are accepted inside any rolling 60-second window; and a request arriving
when the stored history already holds 10 in-window entries is rejected with
the stored history left unchanged. -/
theorem rate_limit_invariant :
    (∀ reqs : List Nat, reqs.Pairwise (· ≤ ·) →
      ∀ T, (((processRequests reqs []).1).filter (inRollingWindow T)).length ≤ 10) ∧
    (∀ (now : Nat) (h : List Nat), 10 ≤ (h.filter (inWindow now)).length →
      checkRateLimit now h = (false, h)) := by
  constructor
  · intro reqs hpw T
    have := processRequests_bounded reqs [] [] 0 hpw
      (by intro r _; omega)
      (by intro t ht; simp at ht)
      (by simp)
      (by intro T'; simp)
      T
    simpa using this
  · intro now h hge
    simp [checkRateLimit, hge]

/-- Witness for the C10 theorem: twelve requests in the same millisecond are
chronologically ordered; of them at most 10 are accepted in the window
ending at time 0, and a history holding 10 in-window entries rejects
without modification. -/
theorem rate_limit_invariant_witness :
    ([0, 0, 0, 0, 0, 0, 0, 0, 0, 0, 0, 0] : List Nat).Pairwise (· ≤ ·) ∧
      (((processRequests [0, 0, 0, 0, 0, 0, 0, 0, 0, 0, 0, 0] []).1).filter
        (inRollingWindow 0)).length ≤ 10 ∧
      10 ≤ (([0, 0, 0, 0, 0, 0, 0, 0, 0, 0] : List Nat).filter (inWindow 5)).length ∧
      checkRateLimit 5 [0, 0, 0, 0, 0, 0, 0, 0, 0, 0]
        = (false, [0, 0, 0, 0, 0, 0, 0, 0, 0, 0]) :=
  ⟨by decide,
    rate_limit_invariant.1 [0, 0, 0, 0, 0, 0, 0, 0, 0, 0, 0, 0] (by decide) 0,
    by decide,
    rate_limit_invariant.2 5 [0, 0, 0, 0, 0, 0, 0, 0, 0, 0] (by decide)⟩

end YTCS
